import Mathlib

/-!
Verification development for the ETA Transition Helper repository.

The JavaScript sources are shallowly embedded into Lean:
pure functions become Lean functions, JavaScript exceptions become
`Except String`, the mutable `matchingColumnsBuckets_` object becomes an
explicit association-list value threaded through the operations, and the
32-bit signed integer arithmetic implied by `|0` and `<<` becomes `Int`
arithmetic reduced modulo `2 ^ 32`.
-/

/-! ### Shared helpers (src/spreadsheet/js/utils.js, src/src/utils.js) -/

/-- JavaScript `String.prototype.trim`, as a kernel-reducible function on
the character list. -/
def jsTrim (s : String) : String :=
  ⟨((s.data.dropWhile Char.isWhitespace).reverse.dropWhile Char.isWhitespace).reverse⟩

/-- JavaScript `String.prototype.toLowerCase` (ASCII case mapping). -/
def jsToLower (s : String) : String :=
  ⟨s.data.map Char.toLower⟩

/-- Embeds `isEmptyString` from utils.js, restricted to string inputs:
`!str` catches the empty string, and otherwise the string is empty
exactly when it trims to the empty string — that is, when every
character is whitespace. -/
def isEmptyString (s : String) : Bool :=
  s.data.all Char.isWhitespace

/-- JavaScript `ToInt32`: wrap an integer into the signed 32-bit range.
Used to embed the `hash |= 0` and `hash << 5` truncations. -/
def toInt32 (n : Int) : Int :=
  (n + 2 ^ 31) % 2 ^ 32 - 2 ^ 31

/-! ### Association-list maps

JavaScript objects are embedded as association lists: a key is present in
the object exactly when it is a key of the list.  A stored value of
`Option.none` in a bucket slot stands for the JavaScript `null` (or
`undefined`) written into a live slot, which is distinct from the slot
being absent. -/

/-- Lookup in an association list (first binding wins, as in a JS object). -/
def alistGet {α β : Type} [DecidableEq α] : List (α × β) → α → Option β
  | [], _ => none
  | (k, v) :: rest, key => if k = key then some v else alistGet rest key

/-- Set a key in an association list, replacing an existing binding or
appending a new one. -/
def alistSet {α β : Type} [DecidableEq α] : List (α × β) → α → β → List (α × β)
  | [], key, val => [(key, val)]
  | (k, v) :: rest, key, val =>
      if k = key then (k, val) :: rest else (k, v) :: alistSet rest key val

/-! ### MatchingColumnsBucket (src/spreadsheet/js/utils.js)

`matchingColumnsBuckets_` maps a column key to an inner object mapping a
32-bit hash to a bucket.  A bucket slot is either a live array of row
identifiers (`some list`) or the `null`/`undefined` left behind by
`transferBucket` (`none`).  JS object keys are strings; numeric keys used
at the call sites coerce to their decimal strings, so string keys lose no
generality, and the integer hash keys are kept as `Int` (decimal string
keys are in bijection with their integers). -/

/-- One column's buckets: hash value to bucket slot. -/
abbrev ColBuckets := List (Int × Option (List String))

/-- The whole `matchingColumnsBuckets_` structure. -/
abbrev MCBuckets := List (String × ColBuckets)

namespace MCB

/-- `MatchingColumnsBucket.prototype.hashCode_`: the 32-bit signed rolling
hash `hash = ((hash << 5) - hash) + chr; hash |= 0`.  The shift truncates
to 32 bits before the subtraction; the subtraction and addition are exact
in doubles at these magnitudes, and `|0` truncates again. -/
def hashCode (str : String) : Int :=
  if isEmptyString str then 0
  else str.data.foldl (fun hash chr => toInt32 (toInt32 (hash * 32) - hash + (chr.toNat : Int))) 0

/-- `MatchingColumnsBucket.prototype.addValue`.  Throws when a key is
blank.  Creates the column entry and the bucket entry on first use and
pushes `value`.  When the slot holds the `null` left by `transferBucket`,
`bucketHash in this.matchingColumnsBuckets_[columnKey]` is still true, so
the bucket is not re-created and `.push` on `null` throws a TypeError. -/
def addValue (m : MCBuckets) (columnKey bucketKey value : String) :
    Except String MCBuckets :=
  if isEmptyString columnKey || isEmptyString bucketKey || isEmptyString value then
    .error "columnKey, bucketKey, and value must have valid values."
  else
    let col := (alistGet m columnKey).getD []
    let bucketHash := hashCode bucketKey
    match alistGet col bucketHash with
    | none => .ok (alistSet m columnKey (alistSet col bucketHash (some [value])))
    | some none => .error "TypeError: cannot push onto a null bucket"
    | some (some bucket) =>
        .ok (alistSet m columnKey (alistSet col bucketHash (some (bucket ++ [value]))))

/-- `MatchingColumnsBucket.prototype.getValue`.  Throws when a key is
blank; returns `null` when the column has never been populated; otherwise
returns the slot's content (`none` embeds both a missing slot's
`undefined` and a nulled slot's `null`, which the callers only ever
distinguish by truthiness). -/
def getValue (m : MCBuckets) (columnKey bucketKey : String) :
    Except String (Option (List String)) :=
  if isEmptyString columnKey || isEmptyString bucketKey then
    .error "columnKey, and bucketKey must have valid values."
  else
    match alistGet m columnKey with
    | some col => .ok (alistGet col (hashCode bucketKey)).join
    | none => .ok none

/-- `MatchingColumnsBucket.prototype.transferBucket`.  Reads both buckets
with `getValue`; when the destination bucket is truthy (a live array,
even an empty one) it concatenates it after the source list — a TypeError
if the source is `null`/`undefined`; then writes the merged list into the
destination slot and writes `null` into the source slot, in that order
(a hash collision therefore leaves `null`).  When the column itself was
never populated, the write to `this.matchingColumnsBuckets_[columnKey]`
throws a TypeError. -/
def transferBucket (m : MCBuckets) (columnKey currentBucketKey newBucketKey : String) :
    Except String MCBuckets :=
  if isEmptyString columnKey || isEmptyString currentBucketKey ||
      isEmptyString newBucketKey then
    .error "columnKey, bucketKey, and newBucketKey must have valid values."
  else
    match alistGet m columnKey with
    | none => .error "TypeError: cannot set a bucket on an undefined column"
    | some col =>
        let valuesToTransfer := (alistGet col (hashCode currentBucketKey)).join
        let valuesInNewBucket := (alistGet col (hashCode newBucketKey)).join
        match valuesInNewBucket with
        | some newVals =>
            match valuesToTransfer with
            | none => .error "TypeError: cannot concat onto a null bucket"
            | some vals =>
                let col1 := alistSet col (hashCode newBucketKey) (some (vals ++ newVals))
                let col2 := alistSet col1 (hashCode currentBucketKey) none
                .ok (alistSet m columnKey col2)
        | none =>
            let col1 := alistSet col (hashCode newBucketKey) valuesToTransfer
            let col2 := alistSet col1 (hashCode currentBucketKey) none
            .ok (alistSet m columnKey col2)

end MCB

example : MCB.hashCode "Aa" = 2112 := by decide
example : MCB.hashCode "BB" = 2112 := by decide
example : MCB.addValue [] "1" "x" "5" =
    .ok [("1", [(MCB.hashCode "x", some ["5"])])] := rfl

/-! ### Read-only state machine (src/spreadsheet/js/utils.js)

`isReadOnly` reads two cells of the active row (the `etaStatus` and
`etaId` columns); the row is embedded as a function from column name to
cell value.  Modelled from the spec: the `ColumnNames` identity map and
the `AdStatus` enum are declared in configuration missing from the
sources; per the spec the relevant column names are `staStatus`,
`etaStatus` and `etaId`, and the statuses are `enabled`, `paused` and
`disabled`, each naming itself. -/

/-- `isReadOnly(sheet, sheetConfig, rowIndex, columnName, oldValue)`.
`readOnlyColumns` is the optional explicit list from the sheet
configuration; `row` gives the active row's cell values by column name. -/
def isReadOnly (readOnlyColumns : Option (List String)) (row : String → String)
    (columnName oldValue : String) : Bool :=
  -- Check explicit read only columns.
  if (match readOnlyColumns with
      | some cols => cols.contains columnName
      | none => false) then
    true
  -- If the active cell is STA Status or ETA Status and the previous value
  -- was `disabled`, it is read only.
  else if (columnName = "staStatus" || columnName = "etaStatus") &&
      oldValue = "disabled" then
    true
  -- All ETA fields become read only once its status changes to `disabled`.
  else if row "etaStatus" = "disabled" then
    true
  -- All ETA fields, besides the status fields, become read only once the
  -- ETA has been created.
  else if !isEmptyString (row "etaId") && columnName ≠ "etaStatus" &&
      columnName ≠ "staStatus" then
    true
  else
    false

/-- `revertEdit(sheet, rowIndex, colIndex, columnName, oldValue)` composed
with the state of the edited cell: the sheet has already applied the edit
(`newValue`) when the trigger runs.  Returns the cell's final value and
the message shown to the user.  When the previous value is blank the
function only shows a failure message and leaves the edit in place. -/
def revertEdit (newValue oldValue columnName : String) : String × String :=
  if isEmptyString oldValue then
    (newValue, "Failed to revert to old value - previous value not found.")
  else
    (oldValue, columnName ++ " is read-only (and may populate automatically).")

/-! ### Mismatch highlighter (src/spreadsheet/js/utils.js) -/

/-- `p` is a prefix of `s` (the `indexOf(prefix) === 0` tests of
`getDomain`), as a kernel-reducible Bool on character lists. -/
def listIsPre : List Char → List Char → Bool
  | [], _ => true
  | _ :: _, [] => false
  | a :: as, b :: bs => a = b && listIsPre as bs

/-- `getDomain(url)`: strip a leading `http://`, then `https://`, then
`www.`, split on `/`, take the first component (everything before the
first slash), and lowercase it when it is non-empty.  Throws on an
empty/blank input (and on the `undefined` produced by indexing an empty
array, which the caller embeds as the same error). -/
def getDomain (url : String) : Except String String :=
  if isEmptyString url then .error "Invalid `url` parameter."
  else
    let l0 := url.data
    let l1 := if listIsPre "http://".data l0 then l0.drop 7 else l0
    let l2 := if listIsPre "https://".data l1 then l1.drop 8 else l1
    let l3 := if listIsPre "www.".data l2 then l2.drop 4 else l2
    let domain : String := ⟨l3.takeWhile (fun ch => ch ≠ '/')⟩
    .ok (if isEmptyString domain then domain else jsToLower domain)

/-- The comparison key of one compared column: `getDomain(urls[0])` where
`urls` is the column's parsed list (`getArray`).  Indexing an empty array
gives `undefined`, on which `getDomain` throws its parameter error. -/
def fieldDomain (getArr : String → List String) (columnName : String) :
    Except String String :=
  match (getArr columnName).head? with
  | none => .error "Invalid `url` parameter."
  | some url => getDomain url

/-- The `columnNames.every(...)` loop of `highlightMismatchFields`,
with its `init`/`previousDomain` state: stops with `false` at the first
domain differing from the previous one, propagates `getDomain` throws,
and returns `true` when all compared domains agree. -/
def mismatchEvery (getArr : String → List String) :
    List String → Option String → Except String Bool
  | [], _ => .ok true
  | columnName :: rest, previousDomain =>
      match fieldDomain getArr columnName with
      | .error e => .error e
      | .ok domain =>
          match previousDomain with
          | none => mismatchEvery getArr rest (some domain)
          | some prev =>
              if prev ≠ domain then .ok false
              else mismatchEvery getArr rest (some domain)

/-- `highlightMismatchFields(spreadsheetRow, columnNames, color)`:
computes `allMatch` with the `every` loop, then sets every compared
cell's background to the configured color on a mismatch and to `null`
(clear) on a match.  `bg` is the row's background state by column name;
the result is the updated background state. -/
def highlightMismatchFields (getArr : String → List String)
    (bg : String → Option String) (columnNames : List String) (color : String) :
    Except String (String → Option String) :=
  match mismatchEvery getArr columnNames none with
  | .error e => .error e
  | .ok allMatch =>
      let highlightColor : Option String := if allMatch then none else some color
      .ok (fun c => if columnNames.contains c then highlightColor else bg c)

/-! ### SpreadsheetRow error state (src/src/utils.js)

Only the error-state fields touched by `markAsError`, `markAsResolved`
and `hasErrors` are embedded; the constructor initializes
`this.hasErrors_ = false`. -/

/-- The error-state slice of a `SpreadsheetRow`. -/
structure RowState where
  errorMessage : String
  background : Option String
  hasErrors_ : Bool
deriving DecidableEq

/-- The `messages` argument of `markAsError`: a single string or an array
of strings. -/
inductive ErrMessages where
  | one (s : String)
  | many (l : List String)
deriving DecidableEq

/-- `isEmptyString` applied to the `messages` argument: an array is never
an empty string (arrays are truthy and not of string type). -/
def isEmptyMessages : ErrMessages → Bool
  | .one s => isEmptyString s
  | .many _ => false

/-- `SpreadsheetRow.prototype.markAsError(messages)`: throws on a
null/undefined or blank-string argument; otherwise paints the row red,
appends the prefixed, newline-joined messages to the `errorMessage`
column and sets `hasErrors_`. -/
def markAsError (r : RowState) (messages : Option ErrMessages) :
    Except String RowState :=
  match messages with
  | none =>
      .error "Empty `messages` parameter provided. A non-empty message must be provided."
  | some m =>
      if isEmptyMessages m then
        .error "Empty `messages` parameter provided. A non-empty message must be provided."
      else
        let joined := match m with
          | .one s => s
          | .many l => String.intercalate "\n- " l
        let text := "- " ++ joined ++ "\n"
        .ok { errorMessage := r.errorMessage ++ text
              background := some "red"
              hasErrors_ := true }

/-- `SpreadsheetRow.prototype.markAsResolved()`: clears the background
and the `errorMessage` column.  It does not touch `hasErrors_`. -/
def markAsResolved (r : RowState) : RowState :=
  { r with background := none, errorMessage := "" }

/-- `SpreadsheetRow.prototype.hasErrors()`. -/
def hasErrors (r : RowState) : Bool :=
  r.hasErrors_

/-! ### isValidParamsObject (src/src/utils.js) -/

/-- The remote `AdWordsApp.Ad` platform object: its id and the two status
predicates backing `isEnabled`/`isPaused`. -/
structure RemoteAd where
  id : Int
  enabled : Bool
  paused : Bool
deriving DecidableEq

/-- The state of an `Ad` instance: the attached platform object if any
(`this.ad`), the report row's `status` field (`this.row.status`), and —
modelled from the spec — what the platform lookup `getAd` would find. -/
structure AdS where
  ad : Option RemoteAd
  rowStatus : String
  fetched : Option RemoteAd
deriving DecidableEq

namespace Ad

/-- `Ad.prototype.getStatus`: with a platform object, `enabled` or
`paused` when the id is positive (otherwise the empty string); with a
report row, the row's status, or a thrown error when that is blank. -/
def getStatus (a : AdS) : Except String String :=
  match a.ad with
  | some r =>
      .ok (if r.id > 0 then
            (if r.enabled then "enabled" else if r.paused then "paused" else "")
           else "")
  | none =>
      if !isEmptyString a.rowStatus then .ok a.rowStatus
      else .error "Invalid ad object."

/-- `Ad.prototype.syncStatus(status)`.  Returns the success flag, the
resulting state and the number of remote status mutations performed.
Throws on a blank `status`; short-circuits with no mutation when the
current status already equals the normalized one; otherwise resolves the
platform object (via the `getAd` lookup when absent, returning `false`
when that fails), treats a negative id as preview mode, and switches on
the normalized status — the `case ''` branch of the source is kept even
though the blank-string guard makes it unreachable. -/
def syncStatus (a : AdS) (status : String) : Except String (Bool × AdS × Nat) :=
  if isEmptyString status then .error "Incorrect status parameter."
  else
    let normalizedStatus := jsToLower (jsTrim status)
    match getStatus a with
    | .error e => .error e
    | .ok current =>
        if current = normalizedStatus then .ok (true, a, 0)
        else
          let resolved : Option AdS :=
            match a.ad with
            | some _ => some a
            | none =>
                match a.fetched with
                | some r => some { a with ad := some r }
                | none => none
          match resolved with
          | none => .ok (false, a, 0)
          | some a2 =>
              match a2.ad with
              | none => .ok (false, a2, 0)
              | some r =>
                  if r.id < 0 then .ok (true, a2, 0)
                  else if normalizedStatus = "enabled" then
                    .ok (true, { a2 with ad := some { r with enabled := true, paused := false } }, 1)
                  else if normalizedStatus = "paused" then
                    .ok (true, { a2 with ad := some { r with enabled := false, paused := true } }, 1)
                  else if normalizedStatus = "" then
                    -- For no value, set to pause.  (Unreachable: the guard above
                    -- threw on every status that trims to the empty string.)
                    .ok (true, { a2 with ad := some { r with enabled := false, paused := true } }, 1)
                  else .ok (false, a2, 0)

/-- `Ad.prototype.diffLabels_(newLabelNames)` as a function of the current
label list (`this.getLabels()`): each new label is trimmed and appended
to `add` when absent from the current labels; each current label is
trimmed and appended to `remove` when its trimmed form is absent from
the raw `newLabelNames`; `hasDiff` is set by any push.  The
`forEach`-and-push loops are written as map-then-filter, which builds
the same lists in the same order. -/
def diffLabels (currentLabelNames newLabelNames : List String) :
    (List String × List String × Bool) :=
  let addL := (newLabelNames.map jsTrim).filter (fun t => !(currentLabelNames.contains t))
  let removeL := (currentLabelNames.map jsTrim).filter (fun t => !(newLabelNames.contains t))
  (addL, removeL, !addL.isEmpty || !removeL.isEmpty)

end Ad

/-- The spec's words for applying a label diff to the current label set:
remove the `remove` labels, then add the `add` labels. -/
def applyLabelDiff (current addL removeL : List String) : List String :=
  current.filter (fun c => !(removeL.contains c)) ++ addL

/-! ### Helper lemmas -/

theorem alistGet_alistSet_self {α β : Type} [DecidableEq α]
    (l : List (α × β)) (k : α) (v : β) : alistGet (alistSet l k v) k = some v := by
  induction l with
  | nil => simp [alistGet, alistSet]
  | cons p rest ih =>
      obtain ⟨pk, pv⟩ := p
      by_cases h : pk = k
      · simp [alistGet, alistSet, h]
      · simp [alistGet, alistSet, h, ih]

theorem alistGet_alistSet_ne {α β : Type} [DecidableEq α]
    (l : List (α × β)) (k k' : α) (v : β) (h : k' ≠ k) :
    alistGet (alistSet l k v) k' = alistGet l k' := by
  have hkk : ¬(k = k') := fun hh => h hh.symm
  induction l with
  | nil =>
      show (if k = k' then some v else alistGet ([] : List (α × β)) k') = none
      rw [if_neg hkk]
      rfl
  | cons p rest ih =>
      obtain ⟨pk, pv⟩ := p
      show alistGet (if pk = k then (pk, v) :: rest else (pk, pv) :: alistSet rest k v) k' =
        (if pk = k' then some pv else alistGet rest k')
      by_cases hk : pk = k
      · rw [if_pos hk]
        have hpk : ¬(pk = k') := fun hh => hkk (hk.symm.trans hh)
        show (if pk = k' then some v else alistGet rest k') = _
        rw [if_neg hpk, if_neg hpk]
      · rw [if_neg hk]
        show (if pk = k' then some pv else alistGet (alistSet rest k v) k') = _
        by_cases hpk' : pk = k'
        · rw [if_pos hpk', if_pos hpk']
        · rw [if_neg hpk', if_neg hpk', ih]

theorem map_fix_of_forall {α : Type} (f : α → α) :
    ∀ l : List α, (∀ x ∈ l, f x = x) → l.map f = l
  | [], _ => rfl
  | x :: xs, h => by
      rw [List.map_cons, h x (List.mem_cons_self x xs),
        map_fix_of_forall f xs (fun y hy => h y (List.mem_cons_of_mem _ hy))]

/-! ### C8 -/

/-- C8: `markAsResolved` clears only the error text and the highlight and
leaves the internal error flag untouched — after any successful
`markAsError`, `hasErrors()` still returns `true` even after a subsequent
`markAsResolved()`. -/
theorem markAsResolved_keeps_error_flag (r r' : RowState) (m : Option ErrMessages)
    (h : markAsError r m = .ok r') :
    hasErrors (markAsResolved r') = true ∧
    (∀ s : RowState, hasErrors (markAsResolved s) = hasErrors s) := by
  refine ⟨?_, fun s => rfl⟩
  cases m with
  | none => simp [markAsError] at h
  | some mm =>
      simp only [markAsError] at h
      split at h
      · exact absurd h (by simp)
      · simp only [Except.ok.injEq] at h
        rw [← h]
        rfl

/-- Witness for C8 at a concrete row and message. -/
theorem markAsResolved_keeps_error_flag_witness :
    hasErrors (markAsResolved ⟨"- boom\n", some "red", true⟩) = true ∧
    (∀ s : RowState, hasErrors (markAsResolved s) = hasErrors s) :=
  markAsResolved_keeps_error_flag ⟨"", none, false⟩
    ⟨"- boom\n", some "red", true⟩ (some (.one "boom")) rfl

/-! ### C2 -/

/-- An `Ad` holding an enabled platform object with id 5. -/
def adEnabledEx : AdS := ⟨some ⟨5, true, false⟩, "", none⟩

/-- An `Ad` holding a paused platform object with id 5. -/
def adPausedEx : AdS := ⟨some ⟨5, false, true⟩, "", none⟩

/-- C2: evaluation of `Ad.syncStatus`.  A declared value of `""` does NOT
map to `paused`: the blank-string guard throws before the source's own
`case '': pause()` branch (commented "For no value, set to pause.") can
run — the code contradicts that comment.  The remaining parts of the
claim hold: an equal status short-circuits with no remote mutation, two
successive calls with the same target perform exactly one remote
mutation, and an unknown status returns failure without raising. -/
theorem syncStatus_empty_throws_code_bug :
    Ad.syncStatus adEnabledEx "" = .error "Incorrect status parameter." ∧
    Ad.syncStatus adEnabledEx "enabled" = .ok (true, adEnabledEx, 0) ∧
    Ad.syncStatus adEnabledEx "paused" = .ok (true, adPausedEx, 1) ∧
    Ad.syncStatus adPausedEx "paused" = .ok (true, adPausedEx, 0) ∧
    Ad.syncStatus adEnabledEx "deleted" = .ok (false, adEnabledEx, 0) :=
  ⟨rfl, rfl, rfl, rfl, rfl⟩

/-! ### C1 -/

/-- C1 counterexample: distinct values may collide under the 32-bit
rolling hash — `"Aa"` and `"BB"` both hash to 2112 — and then a transfer
nulls the merged slot instead of keeping the concatenation: the buckets
for `("7", "Aa")` and `("7", "BB")` both hold `["1", "2"]`, but after
`transferBucket("7", "Aa", "BB")` a lookup of `("7", "BB")` returns
`null`, not the concatenation. -/
theorem transferBucket_collision_counterexample :
    MCB.getValue [("7", [(2112, some ["1", "2"])])] "7" "Aa" = .ok (some ["1", "2"]) ∧
    MCB.getValue [("7", [(2112, some ["1", "2"])])] "7" "BB" = .ok (some ["1", "2"]) ∧
    "Aa" ≠ "BB" ∧
    MCB.transferBucket [("7", [(2112, some ["1", "2"])])] "7" "Aa" "BB" =
      .ok [("7", [(2112, none)])] ∧
    MCB.getValue [("7", [(2112, none)])] "7" "BB" = .ok none :=
  ⟨rfl, rfl, by decide, rfl, rfl⟩

/-- C1 (amended with the hash side condition the counterexample forces):
for values whose hashes differ, if the bucket for `(C, v1)` holds `R1`
and the bucket for `(C, v2)` holds `R2`, then `transferBucket(C, v1, v2)`
succeeds, `getValue(C, v2)` returns exactly the concatenation `R1 ++ R2`
(duplicates are not deduplicated), and `getValue(C, v1)` returns null. -/
theorem transferBucket_merges (m : MCBuckets) (C v1 v2 : String)
    (R1 R2 : List String) (hne : MCB.hashCode v1 ≠ MCB.hashCode v2)
    (h1 : MCB.getValue m C v1 = .ok (some R1))
    (h2 : MCB.getValue m C v2 = .ok (some R2)) :
    ∃ m', MCB.transferBucket m C v1 v2 = .ok m' ∧
      MCB.getValue m' C v2 = .ok (some (R1 ++ R2)) ∧
      MCB.getValue m' C v1 = .ok none := by
  unfold MCB.getValue at h1 h2
  by_cases e1 : (isEmptyString C || isEmptyString v1) = true
  · rw [if_pos e1] at h1
    exact absurd h1 (by simp)
  · rw [if_neg e1] at h1
    by_cases e2 : (isEmptyString C || isEmptyString v2) = true
    · rw [if_pos e2] at h2
      exact absurd h2 (by simp)
    · rw [if_neg e2] at h2
      simp only [Bool.or_eq_true, not_or, Bool.not_eq_true] at e1 e2
      obtain ⟨eC, ev1⟩ := e1
      obtain ⟨_, ev2⟩ := e2
      match hcol : alistGet m C with
      | none =>
          rw [hcol] at h1
          exact absurd h1 (by simp)
      | some col =>
          rw [hcol] at h1 h2
          simp only [Except.ok.injEq] at h1 h2
          have hs1 : alistGet col (MCB.hashCode v1) = some (some R1) := by
            match hv : alistGet col (MCB.hashCode v1) with
            | none => rw [hv] at h1; exact absurd h1 (by simp [Option.join])
            | some b => rw [hv] at h1; cases b <;> simp_all [Option.join]
          have hs2 : alistGet col (MCB.hashCode v2) = some (some R2) := by
            match hv : alistGet col (MCB.hashCode v2) with
            | none => rw [hv] at h2; exact absurd h2 (by simp [Option.join])
            | some b => rw [hv] at h2; cases b <;> simp_all [Option.join]
          refine ⟨alistSet m C
              (alistSet (alistSet col (MCB.hashCode v2) (some (R1 ++ R2)))
                (MCB.hashCode v1) none), ?_, ?_, ?_⟩
          · unfold MCB.transferBucket
            rw [if_neg (by simp [eC, ev1, ev2]), hcol]
            simp only [hs1, hs2]
            rfl
          · unfold MCB.getValue
            rw [if_neg (by simp [eC, ev2]), alistGet_alistSet_self]
            show Except.ok (alistGet (alistSet (alistSet col (MCB.hashCode v2)
                (some (R1 ++ R2))) (MCB.hashCode v1) none) (MCB.hashCode v2)).join =
              Except.ok (some (R1 ++ R2))
            rw [alistGet_alistSet_ne _ _ _ _ (Ne.symm hne), alistGet_alistSet_self]
            rfl
          · unfold MCB.getValue
            rw [if_neg (by simp [eC, ev1]), alistGet_alistSet_self]
            show Except.ok (alistGet (alistSet (alistSet col (MCB.hashCode v2)
                (some (R1 ++ R2))) (MCB.hashCode v1) none) (MCB.hashCode v1)).join =
              Except.ok none
            rw [alistGet_alistSet_self]
            rfl

/-- Witness for C1's amended theorem at a concrete store: column `"7"`
holds `["1"]` under value `"x"` (hash 120) and `["2"]` under `"y"`
(hash 121). -/
theorem transferBucket_merges_witness :
    ∃ m', MCB.transferBucket
        [("7", [(MCB.hashCode "x", some ["1"]), (MCB.hashCode "y", some ["2"])])]
        "7" "x" "y" = .ok m' ∧
      MCB.getValue m' "7" "y" = .ok (some (["1"] ++ ["2"])) ∧
      MCB.getValue m' "7" "x" = .ok none :=
  transferBucket_merges _ "7" "x" "y" ["1"] ["2"] (by decide) rfl rfl

/-! ### C7 -/

/-- C7 counterexample: `addValue` can raise on non-blank arguments.  A
`transferBucket` leaves `null` in the source slot; the slot's key is
still present in the column object, so `addValue` for a value hashing
there does not re-create the bucket and `.push` on `null` raises a
TypeError — despite all three arguments being non-blank. -/
theorem addValue_nulled_bucket_counterexample :
    MCB.transferBucket
        [("7", [(MCB.hashCode "x", some ["5"]), (MCB.hashCode "y", some ["6"])])]
        "7" "x" "y" =
      .ok [("7", [(MCB.hashCode "x", none), (MCB.hashCode "y", some ["5", "6"])])] ∧
    isEmptyString "7" = false ∧ isEmptyString "x" = false ∧
    isEmptyString "9" = false ∧
    MCB.addValue [("7", [(MCB.hashCode "x", none), (MCB.hashCode "y", some ["5", "6"])])]
        "7" "x" "9" = .error "TypeError: cannot push onto a null bucket" :=
  ⟨rfl, rfl, rfl, rfl, rfl⟩

/-- C7 (amended with the nulled-slot side condition the counterexample
forces): `addValue(column, value, rowId)` raises when column, value or
rowId is blank; when all are non-blank and the target slot does not hold
the `null` left by a prior `transferBucket`, it appends `rowId` —
creating the column and bucket entries on first use — so that a
subsequent `getValue(column, value)` returns the previous bucket
contents with `rowId` appended. -/
theorem addValue_appends (m : MCBuckets) (C v r : String) :
    ((isEmptyString C || isEmptyString v || isEmptyString r) = true →
      MCB.addValue m C v r =
        .error "columnKey, bucketKey, and value must have valid values.") ∧
    ((isEmptyString C || isEmptyString v || isEmptyString r) = false →
      alistGet ((alistGet m C).getD []) (MCB.hashCode v) ≠ some none →
      ∃ m' prev, MCB.addValue m C v r = .ok m' ∧
        MCB.getValue m C v = .ok prev ∧
        MCB.getValue m' C v = .ok (some (prev.getD [] ++ [r]))) := by
  constructor
  · intro h
    unfold MCB.addValue
    rw [if_pos h]
  · intro h hnull
    have h' := h
    rw [Bool.or_eq_false_iff, Bool.or_eq_false_iff] at h'
    obtain ⟨⟨hC, hv⟩, hr⟩ := h'
    cases hcol : alistGet m C with
    | none =>
        refine ⟨alistSet m C (alistSet [] (MCB.hashCode v) (some [r])), none, ?_, ?_, ?_⟩
        · unfold MCB.addValue
          rw [if_neg (by simp [h])]
          simp only [hcol, Option.getD_none]
          rfl
        · unfold MCB.getValue
          rw [if_neg (by simp [hC, hv]), hcol]
        · unfold MCB.getValue
          rw [if_neg (by simp [hC, hv]), alistGet_alistSet_self]
          show Except.ok (alistGet (alistSet [] (MCB.hashCode v) (some [r]))
              (MCB.hashCode v)).join =
            Except.ok (some ((none : Option (List String)).getD [] ++ [r]))
          rw [alistGet_alistSet_self]
          rfl
    | some col =>
        have hgetD : (alistGet m C).getD ([] : ColBuckets) = col := by
          rw [hcol]
          rfl
        cases hslot : alistGet col (MCB.hashCode v) with
        | none =>
            refine ⟨alistSet m C (alistSet col (MCB.hashCode v) (some [r])), none,
              ?_, ?_, ?_⟩
            · unfold MCB.addValue
              rw [if_neg (by simp [h])]
              simp only [hcol, Option.getD_some, hslot]
            · unfold MCB.getValue
              rw [if_neg (by simp [hC, hv]), hcol]
              show Except.ok (alistGet col (MCB.hashCode v)).join = Except.ok none
              rw [hslot]
              rfl
            · unfold MCB.getValue
              rw [if_neg (by simp [hC, hv]), alistGet_alistSet_self]
              show Except.ok (alistGet (alistSet col (MCB.hashCode v) (some [r]))
                  (MCB.hashCode v)).join =
                Except.ok (some ((none : Option (List String)).getD [] ++ [r]))
              rw [alistGet_alistSet_self]
              rfl
        | some b =>
            cases b with
            | none => exact absurd (by rw [hgetD, hslot]) hnull
            | some l =>
                refine ⟨alistSet m C (alistSet col (MCB.hashCode v) (some (l ++ [r]))),
                  some l, ?_, ?_, ?_⟩
                · unfold MCB.addValue
                  rw [if_neg (by simp [h])]
                  simp only [hcol, Option.getD_some, hslot]
                · unfold MCB.getValue
                  rw [if_neg (by simp [hC, hv]), hcol]
                  show Except.ok (alistGet col (MCB.hashCode v)).join =
                    Except.ok (some l)
                  rw [hslot]
                  rfl
                · unfold MCB.getValue
                  rw [if_neg (by simp [hC, hv]), alistGet_alistSet_self]
                  show Except.ok (alistGet
                      (alistSet col (MCB.hashCode v) (some (l ++ [r])))
                      (MCB.hashCode v)).join =
                    Except.ok (some ((some l).getD [] ++ [r]))
                  rw [alistGet_alistSet_self]
                  rfl

/-- Witness for C7's amended theorem: adding to the empty store. -/
theorem addValue_appends_witness :
    ∃ m' prev, MCB.addValue [] "7" "x" "9" = .ok m' ∧
      MCB.getValue [] "7" "x" = .ok prev ∧
      MCB.getValue m' "7" "x" = .ok (some (prev.getD [] ++ ["9"])) :=
  (addValue_appends [] "7" "x" "9").2 (by decide) (by decide)

/-! ### C9 -/

/-- C9 counterexample: a transfer whose source bucket is absent does not
always raise.  In a store whose column `"1"` exists (value `"x"`, hash
120, holds `["5"]`) but has no bucket for `"y"` or `"z"`, the call
`transferBucket("1", "y", "z")` succeeds: the destination bucket is not
truthy, so nothing is concatenated, and the call silently stores the
absent source into the destination slot and nulls the source slot. -/
theorem transferBucket_missing_source_counterexample :
    MCB.getValue [("1", [(MCB.hashCode "x", some ["5"])])] "1" "y" = .ok none ∧
    MCB.transferBucket [("1", [(MCB.hashCode "x", some ["5"])])] "1" "y" "z" =
      .ok [("1", [(MCB.hashCode "x", some ["5"]), (MCB.hashCode "z", none),
        (MCB.hashCode "y", none)])] :=
  ⟨rfl, rfl⟩

/-- C9 (amended by the counterexample): with a missing/nulled source
bucket, `transferBucket(C, v1, v2)` raises exactly when the column was
never populated, or when the destination bucket holds a live list (the
concat onto the absent source then throws); when the column exists and
the destination bucket is also absent or nulled, it does not raise — it
performs the empty transfer, leaving both buckets empty/null. -/
theorem transferBucket_missing_source (m : MCBuckets) (C v1 v2 : String)
    (h : (isEmptyString C || isEmptyString v1 || isEmptyString v2) = false)
    (hsrc : ∀ col, alistGet m C = some col →
      (alistGet col (MCB.hashCode v1)).join = none) :
    (alistGet m C = none →
      MCB.transferBucket m C v1 v2 =
        .error "TypeError: cannot set a bucket on an undefined column") ∧
    (∀ col L, alistGet m C = some col →
      (alistGet col (MCB.hashCode v2)).join = some L →
      MCB.transferBucket m C v1 v2 =
        .error "TypeError: cannot concat onto a null bucket") ∧
    (∀ col, alistGet m C = some col →
      (alistGet col (MCB.hashCode v2)).join = none →
      ∃ m', MCB.transferBucket m C v1 v2 = .ok m' ∧
        MCB.getValue m' C v1 = .ok none ∧
        MCB.getValue m' C v2 = .ok none) := by
  have h' := h
  rw [Bool.or_eq_false_iff, Bool.or_eq_false_iff] at h'
  obtain ⟨⟨hC, hv1⟩, hv2⟩ := h'
  refine ⟨?_, ?_, ?_⟩
  · intro hcol
    unfold MCB.transferBucket
    rw [if_neg (by simp [h]), hcol]
  · intro col L hcol hL
    unfold MCB.transferBucket
    rw [if_neg (by simp [h]), hcol]
    simp only [hsrc col hcol, hL]
  · intro col hcol hnone
    refine ⟨alistSet m C (alistSet (alistSet col (MCB.hashCode v2) none)
      (MCB.hashCode v1) none), ?_, ?_, ?_⟩
    · unfold MCB.transferBucket
      rw [if_neg (by simp [h]), hcol]
      simp only [hsrc col hcol, hnone]
    · unfold MCB.getValue
      rw [if_neg (by simp [hC, hv1]), alistGet_alistSet_self]
      show Except.ok (alistGet (alistSet (alistSet col (MCB.hashCode v2) none)
          (MCB.hashCode v1) none) (MCB.hashCode v1)).join = Except.ok none
      rw [alistGet_alistSet_self]
      rfl
    · unfold MCB.getValue
      rw [if_neg (by simp [hC, hv2]), alistGet_alistSet_self]
      show Except.ok (alistGet (alistSet (alistSet col (MCB.hashCode v2) none)
          (MCB.hashCode v1) none) (MCB.hashCode v2)).join = Except.ok none
      by_cases hh : MCB.hashCode v2 = MCB.hashCode v1
      · rw [hh, alistGet_alistSet_self]
        rfl
      · rw [alistGet_alistSet_ne _ _ _ _ hh, alistGet_alistSet_self]
        rfl

/-- Witness for C9's amended theorem at the counterexample's store. -/
theorem transferBucket_missing_source_witness :
    ∃ m', MCB.transferBucket [("1", [(MCB.hashCode "x", some ["5"])])] "1" "y" "z" =
        .ok m' ∧
      MCB.getValue m' "1" "y" = .ok none ∧
      MCB.getValue m' "1" "z" = .ok none :=
  (transferBucket_missing_source [("1", [(MCB.hashCode "x", some ["5"])])] "1" "y" "z"
      (by decide)
      (fun col hc => by
        injection hc with hc'
        rw [← hc']
        rfl)).2.2
    [(MCB.hashCode "x", some ["5"])] rfl rfl

/-! ### C3 -/

/-- A row whose ETA has been created: `etaId` is set, `etaStatus` is
`enabled`. -/
def rowWithEta : String → String := fun c =>
  if c = "etaId" then "12345" else if c = "etaStatus" then "enabled" else ""

/-- C3 counterexample: with a non-empty `etaId` field, the `staStatus`
column is NOT classified read-only (no explicit read-only list, previous
value not `disabled`, `etaStatus` not `disabled`), although `staStatus`
is not the ETA entity's own status field — the created-entity rule in
`isReadOnly` exempts `staStatus` as well as `etaStatus`. -/
theorem isReadOnly_staStatus_counterexample :
    isEmptyString (rowWithEta "etaId") = false ∧
    ("staStatus" : String) ≠ "etaStatus" ∧
    isReadOnly none rowWithEta "staStatus" "enabled" = false :=
  ⟨rfl, by decide, rfl⟩

/-- C3 (amended by the counterexample): once `etaId` is non-empty, every
field except the two status fields (`etaStatus` AND `staStatus`) is
classified read-only by `isReadOnly`; and an edit targeting a read-only
field whose previous value is non-blank is rejected — the prior cell
value is restored and the user is notified that the field is read-only
(with a blank previous value, `revertEdit` only notifies of the failed
revert and the typed value stays). -/
theorem isReadOnly_created_eta (readOnlyColumns : Option (List String))
    (row : String → String) (c old newValue : String)
    (hId : isEmptyString (row "etaId") = false)
    (hc1 : c ≠ "etaStatus") (hc2 : c ≠ "staStatus")
    (hold : isEmptyString old = false) :
    isReadOnly readOnlyColumns row c old = true ∧
    revertEdit newValue old c =
      (old, c ++ " is read-only (and may populate automatically).") := by
  constructor
  · unfold isReadOnly
    split
    · rfl
    · split
      · rfl
      · split
        · rfl
        · rw [if_pos]
          simp [hId, hc1, hc2]
  · unfold revertEdit
    rw [if_neg (by simp [hold])]

/-- Witness for C3's amended theorem: editing the `headline1` cell of a
row with a created ETA. -/
theorem isReadOnly_created_eta_witness :
    isReadOnly none rowWithEta "headline1" "old text" = true ∧
    revertEdit "typed" "old text" "headline1" =
      ("old text", "headline1" ++ " is read-only (and may populate automatically).") :=
  isReadOnly_created_eta none rowWithEta "headline1" "old text" "typed"
    rfl (by decide) (by decide) (by decide)

/-! ### C6 -/

/-- Unfolding of `diffLabels` into its three components. -/
theorem diffLabels_eq (cur tgt : List String) :
    Ad.diffLabels cur tgt =
      ((tgt.map jsTrim).filter (fun t => !(cur.contains t)),
       (cur.map jsTrim).filter (fun t => !(tgt.contains t)),
       !((tgt.map jsTrim).filter (fun t => !(cur.contains t))).isEmpty ||
         !((cur.map jsTrim).filter (fun t => !(tgt.contains t))).isEmpty) := rfl

/-- C6 counterexample: labels are trimmed on one side of each membership
test.  With current labels `["x"]` and target labels `[" x"]`, the
target label `" x"` is absent from the current list yet `add` is empty,
and applying the computed diff and re-diffing against the target leaves
`hasDiff = true` — the diff does not converge. -/
theorem diffLabels_trim_counterexample :
    (" x" : String) ∉ (["x"] : List String) ∧
    (Ad.diffLabels ["x"] [" x"]).1 = [] ∧
    (Ad.diffLabels
        (applyLabelDiff ["x"] (Ad.diffLabels ["x"] [" x"]).1
          (Ad.diffLabels ["x"] [" x"]).2.1)
        [" x"]).2.2 = true :=
  ⟨by decide, rfl, rfl⟩

/-- Convergence core for C6: re-diffing any trim-fixed label list that
contains exactly the target's labels against the target reports no
difference. -/
theorem diffLabels_no_diff_of_same_members (target l : List String)
    (ht : ∀ s ∈ target, jsTrim s = s) (hl : ∀ s ∈ l, jsTrim s = s)
    (hsup : ∀ t ∈ target, t ∈ l) (hsub : ∀ t ∈ l, t ∈ target) :
    (Ad.diffLabels l target).2.2 = false := by
  rw [diffLabels_eq]
  have e1 : (target.map jsTrim).filter (fun t => !(l.contains t)) = [] := by
    rw [map_fix_of_forall _ _ ht, List.filter_eq_nil_iff]
    intro t htm
    simp [hsup t htm]
  have e2 : (l.map jsTrim).filter (fun t => !(target.contains t)) = [] := by
    rw [map_fix_of_forall _ _ hl, List.filter_eq_nil_iff]
    intro t htm
    simp [hsub t htm]
  rw [e1, e2]
  rfl

/-- C6 (amended by the counterexample: restricted to label lists whose
elements carry no surrounding whitespace, i.e. are fixed by trimming):
`diffLabels(current, target)` returns `add` holding exactly the target
labels absent from current, `remove` holding exactly the current labels
absent from target, `hasDiff` true iff `add` or `remove` is non-empty,
and applying the add/remove lists to current and re-diffing against
target yields `hasDiff = false`. -/
theorem diffLabels_spec (current target : List String)
    (hc : ∀ s ∈ current, jsTrim s = s) (ht : ∀ s ∈ target, jsTrim s = s) :
    (Ad.diffLabels current target).1 =
      target.filter (fun t => !(current.contains t)) ∧
    (Ad.diffLabels current target).2.1 =
      current.filter (fun t => !(target.contains t)) ∧
    ((Ad.diffLabels current target).2.2 = true ↔
      (Ad.diffLabels current target).1 ≠ [] ∨
        (Ad.diffLabels current target).2.1 ≠ []) ∧
    (Ad.diffLabels
        (applyLabelDiff current (Ad.diffLabels current target).1
          (Ad.diffLabels current target).2.1)
        target).2.2 = false := by
  have hmapc := map_fix_of_forall _ _ hc
  have hmapt := map_fix_of_forall _ _ ht
  have hadd : (Ad.diffLabels current target).1 =
      target.filter (fun t => !(current.contains t)) := by
    rw [diffLabels_eq, hmapt]
  have hrem : (Ad.diffLabels current target).2.1 =
      current.filter (fun t => !(target.contains t)) := by
    rw [diffLabels_eq, hmapc]
  refine ⟨hadd, hrem, ?_, ?_⟩
  · rw [diffLabels_eq]
    simp [List.isEmpty_iff]
  · rw [hadd, hrem]
    unfold applyLabelDiff
    apply diffLabels_no_diff_of_same_members target _ ht
    · intro s hs
      rcases List.mem_append.mp hs with h1 | h2
      · exact hc s (List.mem_of_mem_filter h1)
      · exact ht s (List.mem_of_mem_filter h2)
    · intro t htm
      rw [List.mem_append]
      by_cases hcur : t ∈ current
      · left
        rw [List.mem_filter]
        refine ⟨hcur, ?_⟩
        simp [List.mem_filter, htm]
      · right
        rw [List.mem_filter]
        exact ⟨htm, by simp [hcur]⟩
    · intro t htm
      rcases List.mem_append.mp htm with h1 | h2
      · obtain ⟨hc1, hc2⟩ := List.mem_filter.mp h1
        by_contra hnt
        have : t ∈ current.filter (fun x => !(target.contains x)) :=
          List.mem_filter.mpr ⟨hc1, by simp [hnt]⟩
        simp [this] at hc2
        exact hc2.elim (fun h => h hc1) (fun h => hnt h)
      · exact (List.mem_filter.mp h2).1

/-- Witness for C6's amended theorem at concrete label lists. -/
theorem diffLabels_spec_witness :
    (Ad.diffLabels ["a", "b"] ["b", "c"]).1 =
      (["b", "c"] : List String).filter (fun t => !((["a", "b"] : List String).contains t)) ∧
    (Ad.diffLabels ["a", "b"] ["b", "c"]).2.1 =
      (["a", "b"] : List String).filter (fun t => !((["b", "c"] : List String).contains t)) ∧
    ((Ad.diffLabels ["a", "b"] ["b", "c"]).2.2 = true ↔
      (Ad.diffLabels ["a", "b"] ["b", "c"]).1 ≠ [] ∨
        (Ad.diffLabels ["a", "b"] ["b", "c"]).2.1 ≠ []) ∧
    (Ad.diffLabels
        (applyLabelDiff ["a", "b"] (Ad.diffLabels ["a", "b"] ["b", "c"]).1
          (Ad.diffLabels ["a", "b"] ["b", "c"]).2.1)
        ["b", "c"]).2.2 = false :=
  diffLabels_spec ["a", "b"] ["b", "c"] (by decide) (by decide)

/-! ### C4 -/

/-- The spec-side match condition: all compared fields reduce to the same
comparison key. -/
def fieldDomainsAgree (getArr : String → List String) (cs : List String) : Prop :=
  ∀ c1 ∈ cs, ∀ c2 ∈ cs, fieldDomain getArr c1 = fieldDomain getArr c2

/-- A row whose first compared column parses to an empty list. -/
def getArrMismatchEx : String → List String := fun c =>
  if c = "b" then ["http://a.com"] else []

/-- C5 counterexample: when a compared field's parsed list is empty, the
comparison does not merely fail — the whole operation raises (the
`undefined` from `urls[0]` makes `getDomain` throw), so no cell's
background is touched. -/
theorem highlightMismatchFields_counterexample :
    getArrMismatchEx "a" = [] ∧
    highlightMismatchFields getArrMismatchEx (fun _ => none) ["a", "b"] "red" =
      .error "Invalid `url` parameter." :=
  ⟨rfl, rfl⟩

/-- Characterization of the `every` loop: with all domains extractable,
it returns `true` when every remaining field's domain equals the previous
one and `false` otherwise. -/
theorem mismatchEvery_char (getArr : String → List String) :
    ∀ (cs : List String) (p : String),
      (∀ c ∈ cs, ∃ d, fieldDomain getArr c = .ok d) →
      (mismatchEvery getArr cs (some p) = .ok true ∧
        ∀ c ∈ cs, fieldDomain getArr c = .ok p) ∨
      (mismatchEvery getArr cs (some p) = .ok false ∧
        ∃ c ∈ cs, fieldDomain getArr c ≠ .ok p)
  | [], p, _ => .inl ⟨rfl, by simp⟩
  | c :: rest, p, hs => by
      obtain ⟨d, hd⟩ := hs c (List.mem_cons_self c rest)
      have hrest : ∀ x ∈ rest, ∃ d', fieldDomain getArr x = .ok d' :=
        fun x hx => hs x (List.mem_cons_of_mem _ hx)
      by_cases hpd : p = d
      · subst hpd
        have hstep : mismatchEvery getArr (c :: rest) (some p) =
            mismatchEvery getArr rest (some p) := by
          simp [mismatchEvery, hd]
        rcases mismatchEvery_char getArr rest p hrest with ⟨h1, h2⟩ | ⟨h1, h2⟩
        · refine .inl ⟨hstep.trans h1, ?_⟩
          intro x hx
          rcases List.mem_cons.mp hx with hxc | hxr
          · rw [hxc]
            exact hd
          · exact h2 x hxr
        · refine .inr ⟨hstep.trans h1, ?_⟩
          obtain ⟨x, hx, hne⟩ := h2
          exact ⟨x, List.mem_cons_of_mem _ hx, hne⟩
      · refine .inr ⟨?_, c, List.mem_cons_self c rest, ?_⟩
        · simp [mismatchEvery, hd, hpd]
        · rw [hd]
          intro hcon
          injection hcon with h'
          exact hpd h'.symm

/-- C5 (amended by the counterexample): when a compared field with an
empty parsed list is reached (in particular when the first compared
field's list is empty), the operation raises instead of treating the
fields as mismatched; when every compared field's domain extracts
successfully, the call succeeds, leaves uncompared cells' backgrounds
unchanged, clears every compared cell on a match, and sets every
compared cell to the configured color on a mismatch. -/
theorem highlightMismatchFields_spec :
    (∀ (getArr : String → List String) (bg : String → Option String)
        (c : String) (rest : List String) (color : String),
      getArr c = [] →
      highlightMismatchFields getArr bg (c :: rest) color =
        .error "Invalid `url` parameter.") ∧
    (∀ (getArr : String → List String) (bg : String → Option String)
        (cs : List String) (color : String),
      (∀ c ∈ cs, ∃ d, fieldDomain getArr c = .ok d) →
      ∃ bg', highlightMismatchFields getArr bg cs color = .ok bg' ∧
        (∀ c, cs.contains c = false → bg' c = bg c) ∧
        (fieldDomainsAgree getArr cs → ∀ c ∈ cs, bg' c = none) ∧
        (¬ fieldDomainsAgree getArr cs → ∀ c ∈ cs, bg' c = some color)) := by
  constructor
  · intro getArr bg c rest color hempty
    have hfd : fieldDomain getArr c = .error "Invalid `url` parameter." := by
      unfold fieldDomain
      rw [hempty]
      rfl
    unfold highlightMismatchFields
    have hstep : mismatchEvery getArr (c :: rest) none =
        .error "Invalid `url` parameter." := by
      simp [mismatchEvery, hfd]
    rw [hstep]

  · intro getArr bg cs color hs
    cases cs with
    | nil =>
        refine ⟨fun c => if ([] : List String).contains c then none else bg c,
          rfl, ?_, ?_, ?_⟩
        · intro c hc
          exact if_neg (by simp)
        · intro _ c hc
          cases hc
        · intro _ c hc
          cases hc
    | cons c0 rest =>
        obtain ⟨d0, hd0⟩ := hs c0 (List.mem_cons_self c0 rest)
        have hstep : mismatchEvery getArr (c0 :: rest) none =
            mismatchEvery getArr rest (some d0) := by
          simp [mismatchEvery, hd0]
        have hrest : ∀ x ∈ rest, ∃ d', fieldDomain getArr x = .ok d' :=
          fun x hx => hs x (List.mem_cons_of_mem _ hx)
        have hagree_iff : fieldDomainsAgree getArr (c0 :: rest) ↔
            (∀ x ∈ rest, fieldDomain getArr x = .ok d0) := by
          constructor
          · intro ha x hx
            have := ha x (List.mem_cons_of_mem _ hx) c0 (List.mem_cons_self _ _)
            rw [this, hd0]
          · intro hall x hx y hy
            have hget : ∀ z ∈ c0 :: rest, fieldDomain getArr z = .ok d0 := by
              intro z hz
              rcases List.mem_cons.mp hz with h | h
              · rw [h]
                exact hd0
              · exact hall z h
            rw [hget x hx, hget y hy]
        rcases mismatchEvery_char getArr rest d0 hrest with ⟨h1, h2⟩ | ⟨h1, h2⟩
        · refine ⟨fun c => if (c0 :: rest).contains c then none else bg c,
            ?_, ?_, ?_, ?_⟩
          · unfold highlightMismatchFields
            rw [hstep, h1]
            rfl
          · intro c hc
            exact if_neg (by simpa using hc)
          · intro _ c hc
            exact if_pos (by simp [hc])
          · intro hna
            exact absurd (hagree_iff.mpr h2) hna
        · refine ⟨fun c => if (c0 :: rest).contains c then some color else bg c,
            ?_, ?_, ?_, ?_⟩
          · unfold highlightMismatchFields
            rw [hstep, h1]
            rfl
          · intro c hc
            exact if_neg (by simpa using hc)
          · intro ha
            obtain ⟨x, hx, hne⟩ := h2
            have hxa := ha x (List.mem_cons_of_mem _ hx) c0 (List.mem_cons_self _ _)
            rw [hd0] at hxa
            exact (hne hxa).elim
          · intro _ c hc
            exact if_pos (by simp [hc])

/-- Witness for C5's amended theorem at a concrete matching row. -/
theorem highlightMismatchFields_spec_witness :
    ∃ bg', highlightMismatchFields (fun _ => ["http://a.com"]) (fun _ => none)
        ["u", "v"] "red" = .ok bg' ∧
      (∀ c, (["u", "v"] : List String).contains c = false → bg' c = none) ∧
      (fieldDomainsAgree (fun _ => ["http://a.com"]) ["u", "v"] →
        ∀ c ∈ (["u", "v"] : List String), bg' c = none) ∧
      (¬ fieldDomainsAgree (fun _ => ["http://a.com"]) ["u", "v"] →
        ∀ c ∈ (["u", "v"] : List String), bg' c = some "red") :=
  highlightMismatchFields_spec.2 (fun _ => ["http://a.com"]) (fun _ => none)
    ["u", "v"] "red" (fun _ _ => ⟨"a.com", rfl⟩)
